import Mathlib

/-!
Shallow embedding of the StealthScribe engine (src/main.py): the corpus
analysis endpoint, the in-memory profile store and the generation stub.
Python floats are modelled as rationals (with round-half-to-even for the
two-decimal rounding), text as lists of characters, and the random score
of the stub as a value drawn from an explicit seed.
-/

/-- ASCII whitespace recognised by Python `str.split()` with no argument
(space, tab, newline, carriage return, vertical tab, form feed). -/
def pySpace (c : Char) : Bool :=
  c.toNat == 32 || c.toNat == 9 || c.toNat == 10 || c.toNat == 13 ||
    c.toNat == 11 || c.toNat == 12

/-- ASCII lower-casing of one character, as Python `str.lower()` acts on the
ASCII range (code points 65-90 are shifted by 32, everything else is kept). -/
def lowerChar (c : Char) : Char :=
  if 65 ≤ c.toNat ∧ c.toNat ≤ 90 then Char.ofNat (c.toNat + 32) else c

/-- Lower-casing of a whole text, modelling `text.lower()`. -/
def lowerText (l : List Char) : List Char := l.map lowerChar

/-- Worker for whitespace splitting: `acc` holds the (reversed) current
token.  Runs of whitespace produce no empty tokens, exactly as Python
`str.split()` with no separator. -/
def wsAux : List Char → List Char → List (List Char)
  | [], acc => if acc.isEmpty then [] else [acc.reverse]
  | c :: cs, acc =>
    if pySpace c then
      if acc.isEmpty then wsAux cs [] else acc.reverse :: wsAux cs []
    else wsAux cs (c :: acc)

/-- Python `text.split()`: whitespace-delimited tokens, no empty tokens. -/
def pySplitWs (l : List Char) : List (List Char) := wsAux l []

/-- Python `text.split('.')`: fragments between the dots, empties kept. -/
def splitOnDot : List Char → List (List Char)
  | [] => [[]]
  | c :: cs =>
    if c = '.' then [] :: splitOnDot cs
    else
      match splitOnDot cs with
      | [] => [[c]]
      | t :: ts => (c :: t) :: ts

/-- Python `s.strip()`: drop whitespace from both ends. -/
def pyStrip (l : List Char) : List Char :=
  ((l.dropWhile pySpace).reverse.dropWhile pySpace).reverse

/-- Python `p in s` for strings: `p` occurs contiguously inside `s`. -/
def containsSeq (p : List Char) : List Char → Bool
  | [] => p.isEmpty
  | c :: rest => p.isPrefixOf (c :: rest) || containsSeq p rest

/-- The fixed marker-phrase list `known_phrases` of `analyze_corpus`. -/
def knownPhrases : List (List Char) :=
  ["in addition,".toList, "however,".toList, "for example,".toList,
    "it is clear that".toList, "on the other hand,".toList]

/-- Round-half-to-even to an integer, as Python `round` on exact values. -/
def roundHalfEven (q : ℚ) : ℤ :=
  if q - ⌊q⌋ < 1 / 2 then ⌊q⌋
  else if 1 / 2 < q - ⌊q⌋ then ⌊q⌋ + 1
  else if ⌊q⌋ % 2 = 0 then ⌊q⌋ else ⌊q⌋ + 1

/-- Python `round(x, 2)`: round to two decimal places. -/
def round2 (q : ℚ) : ℚ := (roundHalfEven (q * 100) : ℚ) / 100

/-- The `AuthorialSignatureModel` record returned by `analyze_corpus`. -/
structure AuthorialSignatureModel where
  avg_sentence_length : ℚ
  lexical_diversity : ℚ
  common_phrases : List (List Char)
  deriving DecidableEq, Repr

/-- An HTTP error raised by an endpoint (`HTTPException`). -/
structure ApiError where
  status : ℕ
  detail : String
  deriving DecidableEq, Repr

/-- The 400 error of `analyze_corpus` on a short corpus. -/
def validationError : ApiError :=
  ⟨400, "Corpus text is too short. Please provide at least 50 words."⟩

/-- The 404 error of `generate_with_twin` when no profile is stored. -/
def notFoundError : ApiError :=
  ⟨404, "User model not found. Please run analysis first."⟩

/-- The request body of the analyze endpoint. -/
structure AnalyzeRequest where
  user_id : String
  corpus_text : List Char

/-- The request body of the generate endpoint. -/
structure GenerateRequest where
  user_id : String
  prompt : String
  tone_level : ℤ

/-- Python `len(text.split())`: the whitespace-delimited word count. -/
def totalWords (text : List Char) : ℕ := (pySplitWs text).length

/-- The sentence fragments kept by `analyze_corpus`: split on the dots,
drop the fragments that are empty after stripping. -/
def sentencesOf (text : List Char) : List (List Char) :=
  (splitOnDot text).filter (fun s => 0 < (pyStrip s).length)

/-- Python `avg_len`: words per sentence, or the fallback 15.0 with no sentence. -/
def avgRaw (text : List Char) : ℚ :=
  if sentencesOf text = [] then 15
  else (totalWords text : ℚ) / ((sentencesOf text).length : ℚ)

/-- Python `words = text.lower().split()`. -/
def wordsLower (text : List Char) : List (List Char) := pySplitWs (lowerText text)

/-- Python `diversity`: distinct tokens over total tokens, fallback 0.5. -/
def divRaw (text : List Char) : ℚ :=
  if wordsLower text = [] then 1 / 2
  else ((wordsLower text).dedup.length : ℚ) / ((wordsLower text).length : ℚ)

/-- Python `found_phrases`: the known phrases occurring in the lower-cased text. -/
def phrasesOf (text : List Char) : List (List Char) :=
  knownPhrases.filter (fun p => containsSeq p (lowerText text))

/-- The pure computation of the analyze endpoint: reject a corpus of fewer
than 50 words, otherwise build the signature model. -/
def analyzeCorpus (text : List Char) : Except ApiError AuthorialSignatureModel :=
  if totalWords text < 50 then Except.error validationError
  else Except.ok ⟨round2 (avgRaw text), round2 (divRaw text), phrasesOf text⟩

/-- The in-memory `FAKE_USER_DATABASE`: user id to stored model. -/
abbrev Store : Type := String → Option AuthorialSignatureModel

/-- The store at process start: nothing stored. -/
def emptyStore : Store := fun _ => none

/-- Python dict assignment `FAKE_USER_DATABASE[k] = v`. -/
def storeInsert (db : Store) (k : String) (v : AuthorialSignatureModel) : Store :=
  fun k2 => if k2 = k then some v else db k2

/-- The analyze endpoint with its side effect on the store: on success the
model is saved under the request user id, on failure nothing changes. -/
def analyzeEndpoint (db : Store) (req : AnalyzeRequest) :
    Store × Except ApiError AuthorialSignatureModel :=
  match analyzeCorpus req.corpus_text with
  | Except.error e => (db, Except.error e)
  | Except.ok asm => (storeInsert db req.user_id asm, Except.ok asm)

/-- Run a sequence of analyze requests against the store. -/
def runAnalyzes (db : Store) : List AnalyzeRequest → Store
  | [] => db
  | r :: rs => runAnalyzes (analyzeEndpoint db r).1 rs

/-- The `tone_map` dictionary of `generate_with_twin`. -/
def toneMap : List (ℤ × String) :=
  [(0, "extremely formal, academic, and rigid"), (1, "formal and academic"),
    (2, "professional and clear"), (3, "engaging and professional"),
    (4, "conversational and personal"), (5, "highly informal, personal, and casual")]

/-- Python `tone_map.get(tone_level, "professional")`. -/
def tonePhraseOf (t : ℤ) : String := (toneMap.lookup t).getD "professional"

/-- The part of the rendered instruction block before the tone phrase. -/
def sysPromptPre (asm : AuthorialSignatureModel) : String :=
  "You are a Forensic Cognitive Analyst. Write a response forensically " ++
    "indistinguishable from the writing of the user, adopting the " ++
    "Authorial Signature Model (ASM). Syntactic Cadence: write with an " ++
    "average sentence length of approx. " ++ toString asm.avg_sentence_length ++
    " words. Lexical Nuance: maintain a lexical diversity score around " ++
    toString asm.lexical_diversity ++ ". Voice Architecture: the target tone is: "

/-- The part of the rendered instruction block after the tone phrase. -/
def sysPromptPost (asm : AuthorialSignatureModel) : String :=
  ". Common Phrases: if appropriate, try to use phrases like: " ++
    String.intercalate ", " (asm.common_phrases.map (fun l => String.mk l)) ++
    " The response must only be the generated text."

/-- The rendered `system_prompt` instruction block, with the tone phrase
embedded between the two fixed parts. -/
def systemPrompt (asm : AuthorialSignatureModel) (tone : ℤ) : String :=
  sysPromptPre asm ++ tonePhraseOf tone ++ sysPromptPost asm

/-- Python `random.randint(lo, hi)` modelled by an explicit seed. -/
def randint (lo hi seed : ℕ) : ℕ := lo + seed % (hi - lo + 1)

/-- The simulated Aegis rating returned by the generation stub. -/
structure AegisRating where
  score : ℕ
  label : String
  deriving DecidableEq, Repr

/-- The response body of the generate endpoint. -/
structure GenerateResponse where
  generated_text : String
  aegis_rating : AegisRating
  deriving DecidableEq, Repr

/-- The generate endpoint: 404 when no model is stored for the user,
otherwise the placeholder text with the simulated rating.  The free-text
prompt of the request is never read by the stub. -/
def generateWithTwin (db : Store) (req : GenerateRequest) (seed : ℕ) :
    Except ApiError GenerateResponse :=
  match db req.user_id with
  | none => Except.error notFoundError
  | some asm =>
    let generated_text :=
      "This is a sample text generated in your voice (Tone: " ++
        toString req.tone_level ++ "). It respects your average sentence length of " ++
        toString asm.avg_sentence_length ++
        " words and your lexical diversity. As you can see, I am obeying the prompt."
    let score := randint 85 98 seed
    let label := if 90 ≤ score then "Undetectable" else "Likely Human"
    Except.ok ⟨generated_text, ⟨score, label⟩⟩

/-- A single token of `n` dots alternating with letters: a.a.a...a. -/
def dotsA : ℕ → List Char
  | 0 => ['a']
  | n + 1 => 'a' :: '.' :: dotsA n

/-- Forty-nine plain one-token words, no dot, no marker phrase. -/
def wordsBlock : List Char :=
  ("b1 b2 b3 b4 b5 b6 b7 b8 b9 b10 b11 b12 b13 b14 b15 b16 b17 b18 b19 b20 " ++
    "b21 b22 b23 b24 b25 b26 b27 b28 b29 b30 b31 b32 b33 b34 b35 b36 b37 b38 " ++
    "b39 b40 b41 b42 b43 b44 b45 b46 b47 b48 b49").toList

/-- A 50-word corpus whose last word packs 10000 dots, so the rounded
average sentence length collapses to zero. -/
def c3text : List Char := wordsBlock ++ ' ' :: dotsA 10000

/-- Fifty pairwise-distinct words, two of which differ only by case. -/
def c6body : List Char :=
  ("A a t1 t2 t3 t4 t5 t6 t7 t8 t9 t10 t11 t12 t13 t14 t15 t16 t17 t18 t19 " ++
    "t20 t21 t22 t23 t24 t25 t26 t27 t28 t29 t30 t31 t32 t33 t34 t35 t36 t37 " ++
    "t38 t39 t40 t41 t42 t43 t44 t45 t46 t47 t48").toList

/-- The corpus `c6body` with the single closing dot appended. -/
def c6bad : List Char := c6body ++ ['.']

/-- Fifty words, pairwise distinct even after lower-casing, no dot. -/
def c6okBody : List Char :=
  ("u1 u2 u3 u4 u5 u6 u7 u8 u9 u10 u11 u12 u13 u14 u15 u16 u17 u18 u19 u20 " ++
    "u21 u22 u23 u24 u25 u26 u27 u28 u29 u30 u31 u32 u33 u34 u35 u36 u37 u38 " ++
    "u39 u40 u41 u42 u43 u44 u45 u46 u47 u48 u49 u50").toList

/-- The corpus `c6okBody` with the single closing dot appended. -/
def c6okText : List Char := c6okBody ++ ['.']

/-- A sample stored signature model used by concrete witnesses. -/
def sampleAsm : AuthorialSignatureModel := ⟨15, 1 / 2, []⟩

/-- A store holding `sampleAsm` under the identifier u. -/
def sampleDb : Store := storeInsert emptyStore "u" sampleAsm

/-- A 50-word corpus starting with the marker word however, used by the
concrete witnesses of the phrase and statistics claims. -/
def c5text : List Char :=
  ("however, v1 v2 v3 v4 v5 v6 v7 v8 v9 v10 v11 v12 v13 v14 v15 v16 v17 v18 " ++
    "v19 v20 v21 v22 v23 v24 v25 v26 v27 v28 v29 v30 v31 v32 v33 v34 v35 v36 " ++
    "v37 v38 v39 v40 v41 v42 v43 v44 v45 v46 v47 v48 v49.").toList

/-- The second component of the analyze endpoint is the pure analysis. -/
theorem analyzeEndpoint_snd (db : Store) (req : AnalyzeRequest) :
    (analyzeEndpoint db req).2 = analyzeCorpus req.corpus_text := by
  unfold analyzeEndpoint
  cases h : analyzeCorpus req.corpus_text <;> simp [h]

/-- On success the analysis returns exactly the three computed fields. -/
theorem analyzeCorpus_eq_ok (text : List Char) (h : ¬ totalWords text < 50) :
    analyzeCorpus text =
      Except.ok ⟨round2 (avgRaw text), round2 (divRaw text), phrasesOf text⟩ := by
  simp [analyzeCorpus, h]

/-- A successful analysis determines the profile and the word-count bound. -/
theorem analyzeCorpus_ok {text : List Char} {p : AuthorialSignatureModel}
    (h : analyzeCorpus text = Except.ok p) :
    ¬ totalWords text < 50 ∧
      p = ⟨round2 (avgRaw text), round2 (divRaw text), phrasesOf text⟩ := by
  by_cases h50 : totalWords text < 50
  · rw [analyzeCorpus, if_pos h50] at h
    exact absurd h (by simp)
  · rw [analyzeCorpus_eq_ok text h50] at h
    exact ⟨h50, (Except.ok.injEq _ _ ▸ h.symm).symm ▸ rfl⟩

/-- A valid code point round-trips through `Char.ofNat`. -/
theorem toNat_ofNat_valid (n : ℕ) (h : n.isValidChar) : (Char.ofNat n).toNat = n := by
  rw [Char.ofNat, dif_pos h]
  rfl

/-- ASCII lower-casing never turns a character into whitespace or back. -/
theorem pySpace_lowerChar (c : Char) : pySpace (lowerChar c) = pySpace c := by
  by_cases h : 65 ≤ c.toNat ∧ c.toNat ≤ 90
  · rw [lowerChar, if_pos h]
    have hv : (c.toNat + 32).isValidChar := Or.inl (by omega)
    have ht : (Char.ofNat (c.toNat + 32)).toNat = c.toNat + 32 := toNat_ofNat_valid _ hv
    have h1 : pySpace (Char.ofNat (c.toNat + 32)) = false := by
      simp only [pySpace, ht, Bool.or_eq_false_iff, beq_eq_false_iff_ne, ne_eq]
      omega
    have h2 : pySpace c = false := by
      simp only [pySpace, Bool.or_eq_false_iff, beq_eq_false_iff_ne, ne_eq]
      omega
    rw [h1, h2]
  · rw [lowerChar, if_neg h]

/-- Splitting distributes over an explicit whitespace separator. -/
theorem wsAux_append_space (s : Char) (hs : pySpace s = true) :
    ∀ (xs acc ys : List Char),
      wsAux (xs ++ s :: ys) acc = wsAux xs acc ++ wsAux ys [] := by
  intro xs
  induction xs with
  | nil =>
    intro acc ys
    show wsAux (s :: ys) acc = wsAux [] acc ++ wsAux ys []
    simp only [wsAux, hs, if_true]
    cases h : acc.isEmpty <;> simp [h]
  | cons c cs ih =>
    intro acc ys
    show wsAux (c :: (cs ++ s :: ys)) acc = wsAux (c :: cs) acc ++ wsAux ys []
    by_cases hc : pySpace c
    · simp only [wsAux, hc, if_true]
      cases h : acc.isEmpty <;> simp [h, ih]
    · simp only [wsAux, hc, if_false, Bool.false_eq_true]
      exact ih (c :: acc) ys

/-- A nonempty run with no whitespace is one single token. -/
theorem wsAux_nospace :
    ∀ (ys : List Char), ys ≠ [] → (∀ c ∈ ys, pySpace c = false) →
      ∀ acc, wsAux ys acc = [acc.reverse ++ ys] := by
  intro ys
  induction ys with
  | nil => intro h; exact absurd rfl h
  | cons c cs ih =>
    intro _ hns acc
    have hc : pySpace c = false := hns c (by simp)
    rw [wsAux, if_neg (by simp [hc])]
    cases hcs : cs with
    | nil =>
      simp [wsAux, List.isEmpty_iff]
    | cons d ds =>
      rw [← hcs, ih (by simp [hcs]) (fun x hx => hns x (by simp [hx])) (c :: acc)]
      simp

/-- Leading whitespace is dropped by the splitter. -/
theorem wsAux_allspace :
    ∀ (xs ys : List Char), (∀ c ∈ xs, pySpace c = true) →
      wsAux (xs ++ ys) [] = wsAux ys [] := by
  intro xs
  induction xs with
  | nil => intro ys _; rfl
  | cons c cs ih =>
    intro ys hsp
    show wsAux (c :: (cs ++ ys)) [] = _
    rw [wsAux, if_pos (hsp c (by simp))]
    simp only [List.isEmpty_nil, if_pos]
    exact ih ys (fun x hx => hsp x (by simp [hx]))

/-- Splitting commutes with a character map that preserves whitespace. -/
theorem wsAux_map (f : Char → Char) (hf : ∀ c, pySpace (f c) = pySpace c) :
    ∀ (l acc : List Char),
      wsAux (l.map f) (acc.map f) = (wsAux l acc).map (List.map f) := by
  intro l
  induction l with
  | nil =>
    intro acc
    show wsAux [] (acc.map f) = _
    rw [wsAux, wsAux]
    cases h : acc.isEmpty with
    | true =>
      have : acc = [] := List.isEmpty_iff.mp h
      simp [this]
    | false =>
      have : acc ≠ [] := by simp [← List.isEmpty_iff, h]
      simp [List.isEmpty_iff, this, List.map_reverse]
  | cons c cs ih =>
    intro acc
    show wsAux (f c :: cs.map f) (acc.map f) = _
    rw [wsAux, wsAux, hf c]
    by_cases hc : pySpace c
    · rw [if_pos hc, if_pos hc]
      cases h : acc.isEmpty with
      | true =>
        have : acc = [] := List.isEmpty_iff.mp h
        simpa [this] using ih []
      | false =>
        have hne : acc ≠ [] := by simp [← List.isEmpty_iff, h]
        have := ih []
        simp only [List.map_nil] at this
        simp [List.isEmpty_iff, hne, this, List.map_reverse]
    · rw [if_neg hc, if_neg hc]
      have := ih (c :: acc)
      simpa using this

/-- Python `text.lower().split()` is the word-by-word lower-casing of
`text.split()`. -/
theorem wordsLower_eq (text : List Char) :
    wordsLower text = (pySplitWs text).map lowerText := by
  have := wsAux_map lowerChar pySpace_lowerChar text []
  simpa [wordsLower, pySplitWs, lowerText] using this

/-- Splitting on dots never yields an empty fragment list. -/
theorem splitOnDot_ne_nil (l : List Char) : splitOnDot l ≠ [] := by
  cases l with
  | nil => simp [splitOnDot]
  | cons c cs =>
    rw [splitOnDot]
    split
    · simp
    · split <;> simp

/-- A dot-free prefix merges into the first fragment of the rest. -/
theorem splitOnDot_append (xs : List Char) (hx : ∀ c ∈ xs, c ≠ '.') :
    ∀ (ys h : List Char) (t : List (List Char)), splitOnDot ys = h :: t →
      splitOnDot (xs ++ ys) = (xs ++ h) :: t := by
  induction xs with
  | nil => intro ys h t hys; simpa using hys
  | cons c cs ih =>
    intro ys h t hys
    have hc : c ≠ '.' := hx c (by simp)
    have hcs : ∀ d ∈ cs, d ≠ '.' := fun d hd => hx d (by simp [hd])
    show splitOnDot (c :: (cs ++ ys)) = ((c :: cs) ++ h) :: t
    rw [splitOnDot, if_neg hc, ih hcs ys h t hys]
    simp

/-- A dot-free text is one single fragment. -/
theorem splitOnDot_nodot (xs : List Char) (hx : ∀ c ∈ xs, c ≠ '.') :
    splitOnDot xs = [xs] := by
  have := splitOnDot_append xs hx [] [] [] rfl
  simpa using this

/-- The fragments of the alternating dotted token are `n + 1` letters. -/
theorem splitOnDot_dotsA (n : ℕ) :
    splitOnDot (dotsA n) = List.replicate (n + 1) ['a'] := by
  induction n with
  | zero => rfl
  | succ m ih =>
    show splitOnDot ('a' :: '.' :: dotsA m) = _
    rw [splitOnDot, if_neg (by decide), splitOnDot, if_pos rfl, ih]
    simp [List.replicate_succ]

/-- The dotted token contains no whitespace. -/
theorem dotsA_nospace (n : ℕ) : ∀ c ∈ dotsA n, pySpace c = false := by
  induction n with
  | zero => intro c hc; simp [dotsA] at hc; simp [hc, pySpace]
  | succ m ih =>
    intro c hc
    simp only [dotsA, List.mem_cons] at hc
    rcases hc with h | h | h
    · simp [h, pySpace]
    · simp [h, pySpace]
    · exact ih c h

/-- The dotted token is nonempty. -/
theorem dotsA_ne_nil (n : ℕ) : dotsA n ≠ [] := by
  cases n <;> simp [dotsA]

/-- A list with a non-whitespace element survives stripping. -/
theorem pyStrip_ne_nil (l : List Char) (c : Char) (hc : c ∈ l)
    (hns : pySpace c = false) : pyStrip l ≠ [] := by
  intro h
  have h1 : (l.dropWhile pySpace).reverse.dropWhile pySpace = [] := by
    rw [pyStrip] at h
    simpa using congrArg List.reverse h
  have h2 : ∀ x ∈ (l.dropWhile pySpace).reverse, pySpace x :=
    List.dropWhile_eq_nil_iff.mp h1
  have h3 : ∀ x ∈ l.dropWhile pySpace, pySpace x := by
    intro x hx
    exact h2 x (by simpa using hx)
  have h4 : ∀ x ∈ l.takeWhile pySpace, pySpace x :=
    fun x hx => List.mem_takeWhile_imp hx
  have h5 : c ∈ l.takeWhile pySpace ++ l.dropWhile pySpace := by
    rw [List.takeWhile_append_dropWhile]
    exact hc
  rcases List.mem_append.mp h5 with h | h
  · exact absurd (h4 c h) (by simp [hns])
  · exact absurd (h3 c h) (by simp [hns])

/-- The executable substring test agrees with contiguous containment. -/
theorem containsSeq_iff (p : List Char) :
    ∀ l, containsSeq p l = true ↔ p <:+: l := by
  intro l
  induction l with
  | nil => simp [containsSeq, List.isEmpty_iff]
  | cons c rest ih => simp [containsSeq, List.infix_cons_iff, ih]

/-- Round-half-to-even stays above any integer lower bound of the input. -/
theorem le_roundHalfEven (B : ℤ) (q : ℚ) (h : (B : ℚ) ≤ q) :
    B ≤ roundHalfEven q := by
  have hf : B ≤ ⌊q⌋ := Int.le_floor.mpr h
  rw [roundHalfEven]
  split
  · exact hf
  · split
    · omega
    · split <;> omega

/-- Round-half-to-even stays below any integer upper bound of the input. -/
theorem roundHalfEven_le (B : ℤ) (q : ℚ) (h : q ≤ (B : ℚ)) :
    roundHalfEven q ≤ B := by
  have hf : ⌊q⌋ ≤ B := by
    have := Int.floor_le_floor h
    simpa using this
  rw [roundHalfEven]
  by_cases h1 : q - ⌊q⌋ < 1 / 2
  · rw [if_pos h1]
    exact hf
  · rw [if_neg h1]
    have hr : 1 / 2 ≤ q - ⌊q⌋ := not_lt.mp h1
    have hfl : (⌊q⌋ : ℚ) ≤ q := Int.floor_le q
    have hB : ⌊q⌋ < B := by
      by_contra hc
      push_neg at hc
      have hcq : (B : ℚ) ≤ (⌊q⌋ : ℚ) := by exact_mod_cast hc
      linarith
    split
    · omega
    · split <;> omega

/-- Rounding to two decimals preserves non-negativity. -/
theorem round2_nonneg (q : ℚ) (h : 0 ≤ q) : 0 ≤ round2 q := by
  rw [round2]
  apply div_nonneg _ (by norm_num)
  have hz : (0 : ℤ) ≤ roundHalfEven (q * 100) :=
    le_roundHalfEven 0 (q * 100) (by positivity)
  exact_mod_cast hz

/-- Rounding to two decimals preserves the upper bound one. -/
theorem round2_le_one (q : ℚ) (h : q ≤ 1) : round2 q ≤ 1 := by
  rw [round2, div_le_one (by norm_num)]
  have hb : roundHalfEven (q * 100) ≤ (100 : ℤ) :=
    roundHalfEven_le 100 (q * 100) (by push_cast; linarith)
  exact_mod_cast hb

/-- No successful analysis for an identifier leaves it unmapped. -/
theorem runAnalyzes_none (uid : String) :
    ∀ (reqs : List AnalyzeRequest) (db : Store), db uid = none →
      (∀ r ∈ reqs, r.user_id = uid → totalWords r.corpus_text < 50) →
      runAnalyzes db reqs uid = none := by
  intro reqs
  induction reqs with
  | nil => intro db h _; exact h
  | cons r rs ih =>
    intro db hdb hall
    show runAnalyzes (analyzeEndpoint db r).1 rs uid = none
    apply ih
    · by_cases h50 : totalWords r.corpus_text < 50
      · have hc : analyzeCorpus r.corpus_text = Except.error validationError := by
          rw [analyzeCorpus, if_pos h50]
        simp [analyzeEndpoint, hc, hdb]
      · have hne : r.user_id ≠ uid := fun he => h50 (hall r (by simp) he)
        simp [analyzeEndpoint, analyzeCorpus_eq_ok r.corpus_text h50, storeInsert,
          Ne.symm hne, hdb]
    · exact fun x hx hid => hall x (by simp [hx]) hid

/-- C1: Analyze fails with the 400 ValidationError exactly when the corpus
has fewer than 50 whitespace-delimited words, and on such input no profile
is returned and the store is left unchanged. -/
theorem spec_c1 (db : Store) (req : AnalyzeRequest) :
    validationError.status = 400 ∧
    ((analyzeEndpoint db req).2 = Except.error validationError ↔
      totalWords req.corpus_text < 50) ∧
    (totalWords req.corpus_text < 50 →
      (analyzeEndpoint db req).1 = db ∧
        ∀ p, (analyzeEndpoint db req).2 ≠ Except.ok p) := by
  by_cases h : totalWords req.corpus_text < 50
  · have hc : analyzeCorpus req.corpus_text = Except.error validationError := by
      rw [analyzeCorpus, if_pos h]
    refine ⟨rfl, ?_, ?_⟩ <;> simp [analyzeEndpoint, hc, h]
  · have hc := analyzeCorpus_eq_ok req.corpus_text h
    refine ⟨rfl, ?_, fun hlt => absurd hlt h⟩
    simp [analyzeEndpoint, hc, h]

/-- Witness for C1 at a concrete six-word corpus and the empty store. -/
theorem spec_c1_witness :
    validationError.status = 400 ∧
    ((analyzeEndpoint emptyStore ⟨"u", "one two three four five six".toList⟩).2 =
        Except.error validationError ↔
      totalWords ("one two three four five six".toList) < 50) ∧
    (totalWords ("one two three four five six".toList) < 50 →
      (analyzeEndpoint emptyStore ⟨"u", "one two three four five six".toList⟩).1 =
          emptyStore ∧
        ∀ p, (analyzeEndpoint emptyStore ⟨"u", "one two three four five six".toList⟩).2 ≠
          Except.ok p) :=
  spec_c1 emptyStore ⟨"u", "one two three four five six".toList⟩

/-- C2: Generate fails with the 404 NotFoundError exactly when nothing is
stored under the requested identifier; in particular it fails after any
sequence of analyze calls none of which succeeded for that identifier. -/
theorem spec_c2 (db : Store) (req : GenerateRequest) (seed : ℕ) :
    notFoundError.status = 404 ∧
    (generateWithTwin db req seed = Except.error notFoundError ↔
      db req.user_id = none) ∧
    ∀ reqs : List AnalyzeRequest,
      (∀ r ∈ reqs, r.user_id = req.user_id → totalWords r.corpus_text < 50) →
      generateWithTwin (runAnalyzes emptyStore reqs) req seed =
        Except.error notFoundError := by
  refine ⟨rfl, ?_, ?_⟩
  · cases hdb : db req.user_id with
    | none => simp [generateWithTwin, hdb]
    | some asm => simp [generateWithTwin, hdb]
  · intro reqs hall
    have h := runAnalyzes_none req.user_id reqs emptyStore rfl hall
    simp [generateWithTwin, h]

/-- Witness for C2: generating for u after one failed analyze for u. -/
theorem spec_c2_witness :
    notFoundError.status = 404 ∧
    (generateWithTwin emptyStore ⟨"u", "write a post", 3⟩ 0 =
        Except.error notFoundError ↔
      emptyStore "u" = none) ∧
    ∀ reqs : List AnalyzeRequest,
      (∀ r ∈ reqs, r.user_id = "u" → totalWords r.corpus_text < 50) →
      generateWithTwin (runAnalyzes emptyStore reqs) ⟨"u", "write a post", 3⟩ 0 =
        Except.error notFoundError :=
  spec_c2 emptyStore ⟨"u", "write a post", 3⟩ 0

/-- C4: a successful Generate call carries a score in 85..98 and the label
Undetectable exactly when the score is at least 90. -/
theorem spec_c4 (db : Store) (req : GenerateRequest) (seed : ℕ)
    (resp : GenerateResponse) (h : generateWithTwin db req seed = Except.ok resp) :
    85 ≤ resp.aegis_rating.score ∧ resp.aegis_rating.score ≤ 98 ∧
      (resp.aegis_rating.label = "Undetectable" ↔ 90 ≤ resp.aegis_rating.score) := by
  cases hdb : db req.user_id with
  | none =>
    unfold generateWithTwin at h
    rw [hdb] at h
    simp at h
  | some asm =>
    unfold generateWithTwin at h
    rw [hdb] at h
    simp only [Except.ok.injEq] at h
    subst h
    have hm : seed % 14 < 14 := Nat.mod_lt _ (by omega)
    refine ⟨?_, ?_, ?_⟩
    · show 85 ≤ randint 85 98 seed
      rw [randint]
      omega
    · show randint 85 98 seed ≤ 98
      rw [randint]
      omega
    · show (if 90 ≤ randint 85 98 seed then "Undetectable" else "Likely Human") =
          "Undetectable" ↔ 90 ≤ randint 85 98 seed
      by_cases h90 : 90 ≤ randint 85 98 seed
      · simp [h90]
      · simp [h90]

/-- Witness for C4 at a store holding a profile for u and seed zero. -/
theorem spec_c4_witness :
    ∃ resp, generateWithTwin sampleDb ⟨"u", "write a post", 3⟩ 0 = Except.ok resp ∧
      (85 ≤ resp.aegis_rating.score ∧ resp.aegis_rating.score ≤ 98 ∧
        (resp.aegis_rating.label = "Undetectable" ↔ 90 ≤ resp.aegis_rating.score)) :=
  ⟨_, rfl, spec_c4 sampleDb ⟨"u", "write a post", 3⟩ 0 _ rfl⟩

/-- C8: the profile returned by Analyze depends only on the corpus text,
not on the store contents or the user identifier. -/
theorem spec_c8 (db1 db2 : Store) (r1 r2 : AnalyzeRequest)
    (h : r1.corpus_text = r2.corpus_text) :
    (analyzeEndpoint db1 r1).2 = (analyzeEndpoint db2 r2).2 := by
  rw [analyzeEndpoint_snd, analyzeEndpoint_snd, h]

/-- Witness for C8: two calls with the same text, different users/stores. -/
theorem spec_c8_witness :
    (analyzeEndpoint emptyStore ⟨"alice", "same words".toList⟩).2 =
      (analyzeEndpoint sampleDb ⟨"bob", "same words".toList⟩).2 :=
  spec_c8 emptyStore sampleDb ⟨"alice", "same words".toList⟩
    ⟨"bob", "same words".toList⟩ rfl

/-- C10: the generation stub never reads the free-text prompt; two requests
differing only in the prompt yield identical responses. -/
theorem spec_c10 (db : Store) (uid p1 p2 : String) (tone : ℤ) (seed : ℕ) :
    generateWithTwin db ⟨uid, p1, tone⟩ seed =
      generateWithTwin db ⟨uid, p2, tone⟩ seed := rfl

/-- C9: a tone selector outside 0..5 misses the six-entry lookup table, so
the phrase embedded in the instruction block defaults to professional; an
in-range selector takes its phrase from the table; the tone selector never
makes Generate fail when a profile is stored. -/
theorem spec_c9 (tone : ℤ) (db : Store) (uid prm : String) (seed : ℕ)
    (asm : AuthorialSignatureModel) (hdb : db uid = some asm) :
    toneMap.length = 6 ∧
    ((tone < 0 ∨ 5 < tone) →
      toneMap.lookup tone = none ∧ tonePhraseOf tone = "professional") ∧
    (0 ≤ tone → tone ≤ 5 →
      ∃ s, toneMap.lookup tone = some s ∧ tonePhraseOf tone = s) ∧
    (tonePhraseOf tone).toList <:+: (systemPrompt asm tone).toList ∧
    ∃ resp, generateWithTwin db ⟨uid, prm, tone⟩ seed = Except.ok resp := by
  refine ⟨rfl, ?_, ?_, ?_, ?_⟩
  · intro hr
    have h0 : tone ≠ 0 := by omega
    have h1 : tone ≠ 1 := by omega
    have h2 : tone ≠ 2 := by omega
    have h3 : tone ≠ 3 := by omega
    have h4 : tone ≠ 4 := by omega
    have h5 : tone ≠ 5 := by omega
    have b0 : (tone == (0 : ℤ)) = false := beq_eq_false_iff_ne.mpr h0
    have b1 : (tone == (1 : ℤ)) = false := beq_eq_false_iff_ne.mpr h1
    have b2 : (tone == (2 : ℤ)) = false := beq_eq_false_iff_ne.mpr h2
    have b3 : (tone == (3 : ℤ)) = false := beq_eq_false_iff_ne.mpr h3
    have b4 : (tone == (4 : ℤ)) = false := beq_eq_false_iff_ne.mpr h4
    have b5 : (tone == (5 : ℤ)) = false := beq_eq_false_iff_ne.mpr h5
    have hl : toneMap.lookup tone = none := by
      simp [toneMap, List.lookup, b0, b1, b2, b3, b4, b5]
    exact ⟨hl, by rw [tonePhraseOf, hl]; rfl⟩
  · intro hlo hhi
    interval_cases tone <;> exact ⟨_, rfl, rfl⟩
  · exact ⟨(sysPromptPre asm).toList, (sysPromptPost asm).toList,
      by simp [systemPrompt, String.toList]⟩
  · simp only [generateWithTwin, hdb]
    exact ⟨_, rfl⟩

/-- Witness for C9 at the out-of-range tone selector seven. -/
theorem spec_c9_witness :
    toneMap.length = 6 ∧
    (((7 : ℤ) < 0 ∨ 5 < (7 : ℤ)) →
      toneMap.lookup (7 : ℤ) = none ∧ tonePhraseOf 7 = "professional") ∧
    (0 ≤ (7 : ℤ) → (7 : ℤ) ≤ 5 →
      ∃ s, toneMap.lookup (7 : ℤ) = some s ∧ tonePhraseOf 7 = s) ∧
    (tonePhraseOf 7).toList <:+: (systemPrompt sampleAsm 7).toList ∧
    ∃ resp, generateWithTwin sampleDb ⟨"u", "write a post", 7⟩ 0 = Except.ok resp :=
  spec_c9 7 sampleDb "u" "write a post" 0 sampleAsm rfl

/-- C5: the common-phrase list is exactly the filter of the fixed known
list by substring presence in the lower-cased text, hence a sublist of the
fixed list in its order. -/
theorem spec_c5 (text : List Char) (p : AuthorialSignatureModel)
    (h : analyzeCorpus text = Except.ok p) :
    p.common_phrases = knownPhrases.filter (fun q => containsSeq q (lowerText text)) ∧
    p.common_phrases.Sublist knownPhrases ∧
    ∀ q, q ∈ p.common_phrases ↔ q ∈ knownPhrases ∧ q <:+: lowerText text := by
  obtain ⟨-, hp⟩ := analyzeCorpus_ok h
  have hfield : p.common_phrases =
      knownPhrases.filter (fun q => containsSeq q (lowerText text)) := by
    rw [hp]
    rfl
  refine ⟨hfield, ?_, ?_⟩
  · rw [hfield]
    exact List.filter_sublist knownPhrases
  · intro q
    rw [hfield, List.mem_filter, containsSeq_iff]

/-- Witness for C5 at a concrete 50-word corpus containing one marker. -/
theorem spec_c5_witness :
    ∃ p, analyzeCorpus c5text = Except.ok p ∧
      (p.common_phrases =
          knownPhrases.filter (fun q => containsSeq q (lowerText c5text)) ∧
        p.common_phrases.Sublist knownPhrases ∧
        ∀ q, q ∈ p.common_phrases ↔ q ∈ knownPhrases ∧ q <:+: lowerText c5text) :=
  ⟨_, rfl, spec_c5 c5text _ rfl⟩

/-- C7: the stored lexical diversity is the rounded ratio of distinct
lower-cased tokens to total token count, and lies within zero and one. -/
theorem spec_c7 (text : List Char) (p : AuthorialSignatureModel)
    (h : analyzeCorpus text = Except.ok p) :
    p.lexical_diversity =
      round2 (((wordsLower text).dedup.length : ℚ) / ((wordsLower text).length : ℚ)) ∧
    0 ≤ p.lexical_diversity ∧ p.lexical_diversity ≤ 1 := by
  obtain ⟨h50, hp⟩ := analyzeCorpus_ok h
  have hlen : (wordsLower text).length = totalWords text := by
    rw [wordsLower_eq, List.length_map]
    rfl
  have hne : wordsLower text ≠ [] := by
    intro hnil
    rw [hnil] at hlen
    simp at hlen
    omega
  have hdiv : divRaw text =
      ((wordsLower text).dedup.length : ℚ) / ((wordsLower text).length : ℚ) := by
    rw [divRaw, if_neg hne]
  have hfield : p.lexical_diversity = round2 (divRaw text) := by
    rw [hp]
  have hpos : (0 : ℚ) < ((wordsLower text).length : ℚ) := by
    have : 0 < (wordsLower text).length := List.length_pos.mpr hne
    exact_mod_cast this
  have hratio0 : 0 ≤ divRaw text := by
    rw [hdiv]
    positivity
  have hratio1 : divRaw text ≤ 1 := by
    rw [hdiv, div_le_one hpos]
    have hle : (wordsLower text).dedup.length ≤ (wordsLower text).length :=
      (List.dedup_sublist (wordsLower text)).length_le
    exact_mod_cast hle
  refine ⟨by rw [hfield, hdiv], ?_, ?_⟩
  · rw [hfield]
    exact round2_nonneg _ hratio0
  · rw [hfield]
    exact round2_le_one _ hratio1

/-- Witness for C7 at a concrete 50-word corpus. -/
theorem spec_c7_witness :
    ∃ p, analyzeCorpus c5text = Except.ok p ∧
      (p.lexical_diversity =
          round2 (((wordsLower c5text).dedup.length : ℚ) /
            ((wordsLower c5text).length : ℚ)) ∧
        0 ≤ p.lexical_diversity ∧ p.lexical_diversity ≤ 1) :=
  ⟨_, rfl, spec_c7 c5text _ rfl⟩

/-- C3 (amended): on success the stored average sentence length is the
rounded value of a strictly positive raw average; after rounding it is
non-negative (rounding can collapse a small positive average to zero). -/
theorem spec_c3 (text : List Char) (p : AuthorialSignatureModel)
    (h : analyzeCorpus text = Except.ok p) :
    0 ≤ p.avg_sentence_length ∧ 0 < avgRaw text ∧
      p.avg_sentence_length = round2 (avgRaw text) := by
  obtain ⟨h50, hp⟩ := analyzeCorpus_ok h
  have hfield : p.avg_sentence_length = round2 (avgRaw text) := by rw [hp]
  have hpos : 0 < avgRaw text := by
    rw [avgRaw]
    by_cases hs : sentencesOf text = []
    · rw [if_pos hs]
      norm_num
    · rw [if_neg hs]
      apply div_pos
      · have hw : 0 < totalWords text := by omega
        exact_mod_cast hw
      · have hl : 0 < (sentencesOf text).length := List.length_pos.mpr hs
        exact_mod_cast hl
  refine ⟨?_, hpos, hfield⟩
  rw [hfield]
  exact round2_nonneg _ (le_of_lt hpos)

/-- Witness for the amended C3 at a concrete 50-word corpus. -/
theorem spec_c3_witness :
    ∃ p, analyzeCorpus c5text = Except.ok p ∧
      (0 ≤ p.avg_sentence_length ∧ 0 < avgRaw c5text ∧
        p.avg_sentence_length = round2 (avgRaw c5text)) :=
  ⟨_, rfl, spec_c3 c5text _ rfl⟩

/-- The 50-word dotted corpus splits into the 49 plain words plus the
dotted token. -/
theorem pySplitWs_c3 : pySplitWs c3text = pySplitWs wordsBlock ++ [dotsA 10000] := by
  show pySplitWs (wordsBlock ++ ' ' :: dotsA 10000) = _
  rw [pySplitWs, wsAux_append_space ' ' (by decide) wordsBlock [] (dotsA 10000)]
  have hns := wsAux_nospace (dotsA 10000) (dotsA_ne_nil 10000) (dotsA_nospace 10000) []
  simp only [List.reverse_nil, List.nil_append] at hns
  rw [hns]
  rfl

/-- The dotted corpus has exactly 50 words. -/
theorem totalWords_c3 : totalWords c3text = 50 := by
  rw [totalWords, pySplitWs_c3, List.length_append]
  have h49 : (pySplitWs wordsBlock).length = 49 := by decide
  rw [h49]
  rfl

set_option maxRecDepth 8000 in
/-- The dotted corpus has 10001 non-blank sentence fragments. -/
theorem sentencesOf_c3 :
    sentencesOf c3text =
      ((wordsBlock ++ [' ']) ++ ['a']) :: List.replicate 10000 ['a'] := by
  have hdots : splitOnDot (dotsA 10000) = ['a'] :: List.replicate 10000 ['a'] := by
    rw [splitOnDot_dotsA 10000, List.replicate_succ]
  have hnd : ∀ c ∈ wordsBlock ++ [' '], c ≠ '.' := by decide
  have hsplit : splitOnDot c3text =
      ((wordsBlock ++ [' ']) ++ ['a']) :: List.replicate 10000 ['a'] := by
    have hc3 : c3text = (wordsBlock ++ [' ']) ++ dotsA 10000 :=
      List.append_cons wordsBlock ' ' (dotsA 10000)
    rw [hc3]
    exact splitOnDot_append (wordsBlock ++ [' ']) hnd (dotsA 10000) ['a']
      (List.replicate 10000 ['a']) hdots
  rw [sentencesOf, hsplit, List.filter_cons]
  have hhead : (decide
      (0 < (pyStrip ((wordsBlock ++ [' ']) ++ ['a'])).length) : Bool) = true := by
    decide
  have hrep : ∀ x ∈ List.replicate 10000 ['a'],
      (decide (0 < (pyStrip x).length) = true) := by
    intro x hx
    rw [List.eq_of_mem_replicate hx]
    decide
  rw [List.filter_eq_self.mpr hrep, if_pos hhead]

/-- The raw average of the dotted corpus is fifty over ten thousand one. -/
theorem avgRaw_c3 : avgRaw c3text = 50 / 10001 := by
  have hne : sentencesOf c3text ≠ [] := by
    rw [sentencesOf_c3]
    exact List.cons_ne_nil _ _
  have hlen : (sentencesOf c3text).length = 10001 := by
    rw [sentencesOf_c3, List.length_cons, List.length_replicate]
  rw [avgRaw, if_neg hne, totalWords_c3, hlen]
  norm_num

/-- Counterexample to C3 as stated: a 50-word corpus whose last word packs
10000 dots is accepted, yet its rounded average sentence length is zero,
not strictly positive. -/
theorem spec_c3_cex :
    ∃ p, analyzeCorpus c3text = Except.ok p ∧ ¬ 0 < p.avg_sentence_length := by
  have h50 : ¬ totalWords c3text < 50 := by
    rw [totalWords_c3]
    omega
  refine ⟨_, analyzeCorpus_eq_ok c3text h50, ?_⟩
  show ¬ 0 < round2 (avgRaw c3text)
  have hz : round2 (avgRaw c3text) = 0 := by
    rw [avgRaw_c3, round2, roundHalfEven]
    norm_num
  rw [hz]
  norm_num

/-- C6 (amended): any corpus of exactly 50 words that are pairwise
distinct after lower-casing, with a single dot at the very end and no
marker phrase, is analysed as one sentence with average sentence length
50.0, lexical diversity 1.0 and no common phrases. -/
theorem spec_c6 (body text : List Char) (htext : text = body ++ ['.'])
    (hdot : ∀ c ∈ body, c ≠ '.')
    (hlen : totalWords text = 50)
    (hnd : ((pySplitWs text).map lowerText).Nodup)
    (hph : ∀ q ∈ knownPhrases, containsSeq q (lowerText text) = false) :
    analyzeCorpus text = Except.ok ⟨50, 1, []⟩ ∧ (sentencesOf text).length = 1 := by
  subst htext
  have hbody_ns : ∃ c ∈ body, pySpace c = false := by
    by_contra hall
    push_neg at hall
    have hsp : ∀ c ∈ body, pySpace c = true := by
      intro c hc
      cases h : pySpace c
      · exact absurd h (hall c hc)
      · rfl
    have h1 : pySplitWs (body ++ ['.']) = [['.']] := by
      rw [pySplitWs, wsAux_allspace body ['.'] hsp]
      decide
    rw [totalWords, h1] at hlen
    simp at hlen
  obtain ⟨c0, hc0mem, hc0⟩ := hbody_ns
  have hstrip : pyStrip body ≠ [] := pyStrip_ne_nil body c0 hc0mem hc0
  have hsent : sentencesOf (body ++ ['.']) = [body] := by
    have hsp : splitOnDot (body ++ ['.']) = [body, []] := by
      have h2 : splitOnDot ['.'] = [[], []] := by decide
      have h3 := splitOnDot_append body hdot ['.'] [] [[]] h2
      simpa using h3
    rw [sentencesOf, hsp]
    have hb : (decide (0 < (pyStrip body).length) : Bool) = true := by
      simpa [List.length_pos] using hstrip
    have he : (decide (0 < (pyStrip ([] : List Char)).length) : Bool) = false := by
      decide
    simp only [List.filter_cons, hb, he, if_pos, if_false, Bool.false_eq_true,
      List.filter_nil, if_true]
  have hslen : (sentencesOf (body ++ ['.'])).length = 1 := by
    rw [hsent]
    rfl
  have havg : avgRaw (body ++ ['.']) = 50 := by
    rw [avgRaw, if_neg (by rw [hsent]; exact List.cons_ne_nil _ _), hlen, hslen]
    norm_num
  have hwl : wordsLower (body ++ ['.']) = (pySplitWs (body ++ ['.'])).map lowerText :=
    wordsLower_eq _
  have hwl_len : (wordsLower (body ++ ['.'])).length = 50 := by
    rw [hwl, List.length_map]
    exact hlen
  have hwl_ne : wordsLower (body ++ ['.']) ≠ [] := by
    intro hx
    rw [hx] at hwl_len
    simp at hwl_len
  have hdd : (wordsLower (body ++ ['.'])).dedup = wordsLower (body ++ ['.']) := by
    rw [hwl]
    exact List.Nodup.dedup hnd
  have hdiv : divRaw (body ++ ['.']) = 1 := by
    rw [divRaw, if_neg hwl_ne, hdd, hwl_len]
    norm_num
  have hphr : phrasesOf (body ++ ['.']) = [] := by
    rw [phrasesOf, List.filter_eq_nil_iff]
    intro q hq
    simp [hph q hq]
  have hr50 : round2 (50 : ℚ) = 50 := by
    rw [round2, roundHalfEven]
    norm_num
  have hr1 : round2 (1 : ℚ) = 1 := by
    rw [round2, roundHalfEven]
    norm_num
  have h50 : ¬ totalWords (body ++ ['.']) < 50 := by omega
  refine ⟨?_, hslen⟩
  rw [analyzeCorpus_eq_ok _ h50, havg, hdiv, hphr, hr50, hr1]

set_option maxRecDepth 8000 in
/-- Witness for the amended C6 at a concrete 50-word corpus. -/
theorem spec_c6_witness :
    analyzeCorpus c6okText = Except.ok ⟨50, 1, []⟩ ∧
      (sentencesOf c6okText).length = 1 :=
  spec_c6 c6okBody c6okText rfl (by decide) (by decide) (by decide) (by decide)

set_option maxRecDepth 8000 in
/-- Counterexample to C6 as stated: fifty pairwise-distinct words with a
single final dot and no marker phrase, two of which differ only by case;
the analysis succeeds but the stored lexical diversity is 0.98, not 1. -/
theorem spec_c6_cex :
    c6bad = c6body ++ ['.'] ∧
    (∀ c ∈ c6body, c ≠ '.') ∧
    totalWords c6bad = 50 ∧
    (pySplitWs c6bad).Nodup ∧
    (∀ q ∈ knownPhrases, containsSeq q (lowerText c6bad) = false) ∧
    ∃ p, analyzeCorpus c6bad = Except.ok p ∧ p.lexical_diversity ≠ 1 := by
  refine ⟨rfl, by decide, by decide, by decide, by decide, ?_⟩
  have h50 : ¬ totalWords c6bad < 50 := by decide
  refine ⟨_, analyzeCorpus_eq_ok c6bad h50, ?_⟩
  show round2 (divRaw c6bad) ≠ 1
  have h1 : (wordsLower c6bad).dedup.length = 49 := by decide
  have h2 : (wordsLower c6bad).length = 50 := by decide
  have h3 : wordsLower c6bad ≠ [] := by
    intro hx
    rw [hx] at h2
    simp at h2
  have hd : divRaw c6bad = 49 / 50 := by
    rw [divRaw, if_neg h3, h1, h2]
    norm_num
  have hr : round2 ((49 : ℚ) / 50) = 49 / 50 := by
    rw [round2, roundHalfEven]
    norm_num
  rw [hd, hr]
  norm_num
